import Mathlib

/-!
Credit-ledger verification for the grade-guardian repository.

Shallow embedding of the credit ledger of the repository:
`supabase/migrations/20240101000001_credits-system.sql` (tables
`credit_batches` / `credit_usage`, functions `deduct_credits`) together
with the later migration (the yearly-plans migration) that replaces
`add_credits` via `CREATE OR REPLACE` and adds `add_plan_credits`,
and `getRemainingCredits` from `src/services/pdfService.ts`.
-/

/-- One row of `public.credit_batches`.  UUIDs are modelled as `Nat`
identifiers drawn from a counter; timestamps are `Int` (seconds). -/
structure CreditBatch where
  id : Nat
  user_id : Nat
  credits : Int
  used_credits : Int
  subscription_type : String
  expires_at : Int
  created_at : Int
  updated_at : Int
  deriving Repr, DecidableEq

/-- One row of `public.credit_usage`. -/
structure CreditUsage where
  id : Nat
  user_id : Nat
  batch_id : Nat
  credits_used : Int
  assignment_name : String
  assignment_id : Option Nat
  created_at : Int
  deriving Repr, DecidableEq

/-- The database state the ledger functions touch: the two tables plus
fresh-id counters standing in for `gen_random_uuid()`. -/
structure Ledger where
  batches : List CreditBatch
  usage : List CreditUsage
  nextBatchId : Nat
  nextUsageId : Nat
  deriving Repr, DecidableEq

def emptyLedger : Ledger := ⟨[], [], 0, 0⟩

/-- One day, in seconds (`interval '1 day'`). -/
def day : Int := 86400

/-- Model of `UPDATE public.credit_batches SET ... WHERE id = i`:
apply `f` to every row whose `id` matches. -/
def updateBatch (bs : List CreditBatch) (i : Nat) (f : CreditBatch → CreditBatch) :
    List CreditBatch :=
  bs.map (fun b => if b.id = i then f b else b)

/-- Model of `INSERT INTO public.credit_usage ...` with a fresh id. -/
def insertUsage (s : Ledger) (uid bid : Nat) (amount : Int) (name : String)
    (aid : Option Nat) (now : Int) : Ledger :=
  { s with
    usage := s.usage ++
      [⟨s.nextUsageId, uid, bid, amount, name, aid, now⟩],
    nextUsageId := s.nextUsageId + 1 }

/-- The `SELECT` driving the loop of `deduct_credits`: the owner's rows with
`expires_at > now()` and `(credits - used_credits) > 0`,
`ORDER BY expires_at ASC`. -/
def activeBatches (s : Ledger) (uid : Nat) (now : Int) : List CreditBatch :=
  (s.batches.filter
      (fun b => b.user_id = uid ∧ now < b.expires_at ∧ 0 < b.credits - b.used_credits)).insertionSort
    (fun a b => a.expires_at ≤ b.expires_at)

/-- The first `UPDATE` of `deduct_credits`:
`SET used_credits = used_credits + remaining_to_deduct, updated_at = now()`. -/
def updateTake (now remaining : Int) (b : CreditBatch) : CreditBatch :=
  { b with used_credits := b.used_credits + remaining, updated_at := now }

/-- The second `UPDATE` of `deduct_credits`:
`SET used_credits = credits, updated_at = now()`. -/
def updateDrain (now : Int) (b : CreditBatch) : CreditBatch :=
  { b with used_credits := b.credits, updated_at := now }

/-- The loop body of `public.deduct_credits`: walk the snapshot of active
batches; if the current batch covers the remaining amount, take it from that
batch, record the usage and return `TRUE`; otherwise drain the batch
(`SET used_credits = credits`), record its available credits, and continue
with the rest.  Falling off the list returns `FALSE`. -/
def deductLoop (uid : Nat) (name : String) (aid : Option Nat) (now : Int) :
    List CreditBatch → Int → Ledger → Bool × Ledger
  | [], _, s => (false, s)
  | batch :: rest, remaining, s =>
    let credits_available := batch.credits - batch.used_credits
    if credits_available ≥ remaining then
      let s1 := { s with
        batches := updateBatch s.batches batch.id (updateTake now remaining) }
      (true, insertUsage s1 uid batch.id remaining name aid now)
    else
      let s1 := { s with
        batches := updateBatch s.batches batch.id (updateDrain now) }
      deductLoop uid name aid now rest (remaining - credits_available)
        (insertUsage s1 uid batch.id credits_available name aid now)

/-- The function `public.deduct_credits(p_user_id, p_credits_to_deduct, p_assignment_name,
p_assignment_id)`: loop over the owner's non-expired batches with remaining
credits, oldest expiry first. -/
def deduct_credits (s : Ledger) (p_user_id : Nat) (p_credits_to_deduct : Int)
    (p_assignment_name : String) (p_assignment_id : Option Nat) (now : Int) :
    Bool × Ledger :=
  deductLoop p_user_id p_assignment_name p_assignment_id now
    (activeBatches s p_user_id now) p_credits_to_deduct s

/-- The expiry computation (`CASE p_subscription_type ... END CASE`) of `add_credits` (in its
`CREATE OR REPLACE`d form from the yearly-plans migration): the expiry date
by subscription type, with the caller's `p_expiry_days` used only on the
fallback (`ELSE`) path. -/
def add_expiry (p_subscription_type : String) (p_expiry_days now : Int) : Int :=
  if p_subscription_type = "student" then now + 30 * day
  else if p_subscription_type = "student_yearly" then now + 365 * day
  else if p_subscription_type = "pro" then now + 90 * day
  else if p_subscription_type = "pro_yearly" then now + 365 * day
  else now + p_expiry_days * day

/-- The `credit_batches` row inserted by one `add_credits` call
(`used_credits` takes its column default `0`). -/
def newBatch (s : Ledger) (p_user_id : Nat) (p_credits : Int)
    (p_subscription_type : String) (p_expiry_days : Int) (now : Int) :
    CreditBatch :=
  { id := s.nextBatchId, user_id := p_user_id, credits := p_credits,
    used_credits := 0, subscription_type := p_subscription_type,
    expires_at := add_expiry p_subscription_type p_expiry_days now,
    created_at := now, updated_at := now }

/-- The function `public.add_credits(p_user_id, p_credits, p_subscription_type,
p_expiry_days)` as redefined by the yearly-plans migration (its
`CREATE OR REPLACE` supersedes the version in the initial migration):
computes the expiry date from the subscription type, inserts one new
`credit_batches` row, and returns the new row's id. -/
def add_credits (s : Ledger) (p_user_id : Nat) (p_credits : Int)
    (p_subscription_type : String) (p_expiry_days : Int) (now : Int) :
    Nat × Ledger :=
  (s.nextBatchId,
   { s with
     batches := s.batches ++
       [newBatch s p_user_id p_credits p_subscription_type p_expiry_days now],
     nextBatchId := s.nextBatchId + 1 })

/-- The function `public.add_plan_credits(p_user_id, p_plan_type)`: map the plan token to
a fixed (credits, subscription_type) pair and delegate to `add_credits`
(with its default `p_expiry_days = 30`); an unrecognized token raises
`EXCEPTION 'Invalid plan type'`, modelled as `none`. -/
def add_plan_credits (s : Ledger) (p_user_id : Nat) (p_plan_type : String)
    (now : Int) : Option (Nat × Ledger) :=
  if p_plan_type = "student_monthly" then
    some (add_credits s p_user_id 50 "student" 30 now)
  else if p_plan_type = "student_yearly" then
    some (add_credits s p_user_id 605 "student_yearly" 30 now)
  else if p_plan_type = "pro_monthly" then
    some (add_credits s p_user_id 150 "pro" 30 now)
  else if p_plan_type = "pro_yearly" then
    some (add_credits s p_user_id 605 "pro_yearly" 30 now)
  else none

/-- The function `getRemainingCredits` from `src/services/pdfService.ts`: select the
owner's rows with `expires_at > now`, then reduce
`total + (credits - used_credits)` starting from `0`. -/
def getRemainingCredits (s : Ledger) (userId : Nat) (now : Int) : Int :=
  ((s.batches.filter (fun b => b.user_id = userId ∧ now < b.expires_at)).map
      (fun b => b.credits - b.used_credits)).sum

/-- Sum of `credits_used` over the usage rows charged to batch `i`. -/
def usageSum (us : List CreditUsage) (i : Nat) : Int :=
  ((us.filter (fun u => u.batch_id = i)).map (fun u => u.credits_used)).sum

/-- Total credits available across a list of batches. -/
def availSum (bs : List CreditBatch) : Int :=
  (bs.map (fun b => b.credits - b.used_credits)).sum

/-- Ledger states reachable from the empty ledger by any sequence of
allocation (`add_credits`, `add_plan_credits`) and deduction
(`deduct_credits`) calls, with arbitrary arguments. -/
inductive Reachable : Ledger → Prop where
  | empty : Reachable emptyLedger
  | add (s uid credits subType expiryDays now) : Reachable s →
      Reachable (add_credits s uid credits subType expiryDays now).2
  | addPlan (s uid plan now bid s') : Reachable s →
      add_plan_credits s uid plan now = some (bid, s') → Reachable s'
  | deduct (s uid amt name aid now) : Reachable s →
      Reachable (deduct_credits s uid amt name aid now).2

/-- Bookkeeping invariant tying the two tables together: batch ids are
fresh-counter-bounded and distinct, usage rows reference old ids, and each
batch's `used_credits` equals the usage charged to it. -/
structure LedgerInv (s : Ledger) : Prop where
  idLt : ∀ b ∈ s.batches, b.id < s.nextBatchId
  idNodup : (s.batches.map (fun b => b.id)).Nodup
  usageLt : ∀ u ∈ s.usage, u.batch_id < s.nextBatchId
  sumEq : ∀ b ∈ s.batches, usageSum s.usage b.id = b.used_credits

/-- Every batch's consumption counter lies between `0` and its size. -/
def BoundsInv (s : Ledger) : Prop :=
  ∀ b ∈ s.batches, 0 ≤ b.used_credits ∧ b.used_credits ≤ b.credits

/-- The usage rows written by a run of `deduct_credits` that drains every
batch it visits. -/
def drainRecords (uid : Nat) (name : String) (aid : Option Nat) (now : Int) :
    Nat → List CreditBatch → List CreditUsage
  | _, [] => []
  | nid, b :: rest =>
    ⟨nid, uid, b.id, b.credits - b.used_credits, name, aid, now⟩ ::
      drainRecords uid name aid now (nid + 1) rest

/-- The balance, stated the way the spec words it: every batch of the owner
that is past expiry contributes `0`; a live one contributes
`credits - used_credits`. -/
def balanceSpec (s : Ledger) (uid : Nat) (now : Int) : Int :=
  (s.batches.map (fun b =>
    if b.user_id = uid ∧ now < b.expires_at then b.credits - b.used_credits
    else 0)).sum

/-- One ledger call under the spec's stated input constraints: allocations
of a non-negative amount, deductions of a non-negative amount. -/
inductive StepPos : Ledger → Ledger → Prop where
  | add (s : Ledger) (uid : Nat) (credits : Int) (subType : String)
      (expiryDays now : Int) : 0 ≤ credits →
      StepPos s (add_credits s uid credits subType expiryDays now).2
  | addPlan (s : Ledger) (uid : Nat) (plan : String) (now : Int) (bid : Nat)
      (s' : Ledger) : add_plan_credits s uid plan now = some (bid, s') →
      StepPos s s'
  | deduct (s : Ledger) (uid : Nat) (amt : Int) (name : String)
      (aid : Option Nat) (now : Int) : 0 ≤ amt →
      StepPos s (deduct_credits s uid amt name aid now).2

/-- States reachable from the empty ledger by calls obeying the spec's
input constraints. -/
inductive ReachPos : Ledger → Prop where
  | empty : ReachPos emptyLedger
  | step (s s' : Ledger) : ReachPos s → StepPos s s' → ReachPos s'

/-! ### Concrete test fixtures (used in example runs and witnesses) -/

/-- Owner 7 with two active batches: 2 of 2 left expiring in 5 days,
10 of 10 left expiring in 30 days. -/
def exC2 : Ledger :=
  ⟨[⟨1, 7, 2, 0, "free", 5 * day, 0, 0⟩, ⟨2, 7, 10, 0, "free", 30 * day, 0, 0⟩],
   [], 3, 0⟩

/-- Owner 1 with a single active batch of 5 credits, none used. -/
def exC3 : Ledger := ⟨[⟨0, 1, 5, 0, "free", 10 * day, 0, 0⟩], [], 1, 0⟩

/-- Owner 4 with one exhausted batch (5 of 5 used) and two active batches
of 3 and 2 credits, expiries ascending. -/
def exC4 : Ledger :=
  ⟨[⟨1, 4, 5, 5, "free", 2 * day, 0, 0⟩, ⟨2, 4, 3, 0, "free", 3 * day, 0, 0⟩,
    ⟨3, 4, 2, 0, "free", 4 * day, 0, 0⟩], [], 4, 0⟩

/-- Owner 2 with one live batch. -/
def exC5 : Ledger := ⟨[⟨0, 2, 4, 1, "free", 20 * day, 0, 0⟩], [], 1, 0⟩

/-- A batch of owner 2 whose expiry has already passed while credits
remain unused. -/
def exC5expired : CreditBatch := ⟨9, 2, 7, 1, "free", -day, -2 * day, -2 * day⟩

/-- Owner 3 with two active batches; the one with id 6 expires first. -/
def exC10 : Ledger :=
  ⟨[⟨5, 3, 6, 1, "free", 8 * day, 0, 0⟩, ⟨6, 3, 9, 0, "free", 2 * day, 0, 0⟩],
   [], 7, 0⟩

/-- Allocate then deduct, on a fresh account of owner 1. -/
def exC1 : Ledger :=
  (deduct_credits (add_credits emptyLedger 1 5 "free" 14 0).2 1 3 "hw" none 1).2

/-- The batch of `exC1` after its allocation and the 3-credit deduction. -/
def exC1batch : CreditBatch := ⟨0, 1, 5, 3, "free", 14 * day, 0, 1⟩

/-- Allocate 5 credits, then deduct the negative amount `-3`. -/
def cexC8 : Ledger :=
  (deduct_credits (add_credits emptyLedger 1 5 "free" 14 0).2 1 (-3) "hw"
    none 1).2

example :
    activeBatches ⟨[⟨0, 1, 5, 0, "free", 10, 0, 0⟩, ⟨1, 1, 5, 0, "free", 4, 0, 0⟩], [], 2, 0⟩ 1 3
      = [⟨1, 1, 5, 0, "free", 4, 0, 0⟩, ⟨0, 1, 5, 0, "free", 10, 0, 0⟩] := by decide

example :
    deduct_credits ⟨[⟨0, 1, 5, 0, "free", 10, 0, 0⟩], [], 1, 0⟩ 1 10 "a" none 3
      = (false, ⟨[⟨0, 1, 5, 5, "free", 10, 0, 3⟩], [⟨0, 1, 0, 5, "a", none, 3⟩], 1, 1⟩) := by
  decide

example :
    deduct_credits ⟨[⟨0, 1, 5, 0, "free", 10, 0, 0⟩], [], 1, 0⟩ 1 3 "a" none 3
      = (true, ⟨[⟨0, 1, 5, 3, "free", 10, 0, 3⟩], [⟨0, 1, 0, 3, "a", none, 3⟩], 1, 1⟩) := by
  decide

/-! ## Basic lemmas about the table operations -/

theorem usageSum_nil (i : Nat) : usageSum [] i = 0 := rfl

theorem usageSum_append (us vs : List CreditUsage) (i : Nat) :
    usageSum (us ++ vs) i = usageSum us i + usageSum vs i := by
  simp [usageSum]

theorem usageSum_cons (u : CreditUsage) (us : List CreditUsage) (i : Nat) :
    usageSum (u :: us) i =
      (if u.batch_id = i then u.credits_used else 0) + usageSum us i := by
  by_cases h : u.batch_id = i <;> simp [usageSum, List.filter_cons, h]

theorem usageSum_eq_zero :
    ∀ (us : List CreditUsage) (i : Nat), (∀ u ∈ us, u.batch_id ≠ i) →
      usageSum us i = 0
  | [], _, _ => rfl
  | u :: us, i, h => by
    rw [usageSum_cons, if_neg (h u (by simp)),
      usageSum_eq_zero us i (fun v hv => h v (by simp [hv]))]
    simp

theorem updateBatch_map_id (f : CreditBatch → CreditBatch)
    (hf : ∀ b, (f b).id = b.id) (bs : List CreditBatch) (i : Nat) :
    (updateBatch bs i f).map (fun b => b.id) = bs.map (fun b => b.id) := by
  induction bs with
  | nil => rfl
  | cons b bs ih =>
    by_cases h : b.id = i <;>
      simp only [updateBatch, List.map_cons] at ih ⊢ <;>
      simp [h, hf, ih]

theorem mem_updateBatch {bs : List CreditBatch} {i : Nat}
    {f : CreditBatch → CreditBatch} {c : CreditBatch} :
    c ∈ updateBatch bs i f ↔ ∃ b ∈ bs, c = if b.id = i then f b else b := by
  simp only [updateBatch, List.mem_map, eq_comm]

theorem mem_updateBatch_of_ne {bs : List CreditBatch} {b : CreditBatch}
    {i : Nat} {f : CreditBatch → CreditBatch} (hb : b ∈ bs) (hne : b.id ≠ i) :
    b ∈ updateBatch bs i f := by
  rw [mem_updateBatch]
  exact ⟨b, hb, by simp [hne]⟩

theorem mem_activeBatches {s : Ledger} {uid : Nat} {now : Int}
    {b : CreditBatch} :
    b ∈ activeBatches s uid now ↔
      b ∈ s.batches ∧ b.user_id = uid ∧ now < b.expires_at ∧
        0 < b.credits - b.used_credits := by
  rw [activeBatches, (List.perm_insertionSort _ _).mem_iff, List.mem_filter]
  simp

/-! ## Preservation of the bookkeeping invariant -/

theorem LedgerInv_empty : LedgerInv emptyLedger :=
  ⟨by simp [emptyLedger], by simp [emptyLedger], by simp [emptyLedger],
   by simp [emptyLedger]⟩

theorem LedgerInv_update_insert {s : Ledger} {batch : CreditBatch}
    (f : CreditBatch → CreditBatch) (amt : Int)
    (hInv : LedgerInv s) (hb : batch ∈ s.batches)
    (hfid : ∀ b, (f b).id = b.id)
    (hfu : (f batch).used_credits = batch.used_credits + amt)
    (uid : Nat) (name : String) (aid : Option Nat) (now : Int) :
    LedgerInv (insertUsage
      { s with batches := updateBatch s.batches batch.id f }
      uid batch.id amt name aid now) := by
  constructor
  · intro b hbmem
    simp only [insertUsage] at hbmem
    rcases mem_updateBatch.1 hbmem with ⟨b0, hb0, rfl⟩
    by_cases h0 : b0.id = batch.id
    · simpa [h0, hfid] using hInv.idLt b0 hb0
    · simpa [h0] using hInv.idLt b0 hb0
  · simpa [insertUsage, updateBatch_map_id f hfid] using hInv.idNodup
  · intro u hu
    simp only [insertUsage, List.mem_append, List.mem_singleton] at hu
    rcases hu with hu | rfl
    · exact hInv.usageLt u hu
    · exact hInv.idLt batch hb
  · intro b hbmem
    simp only [insertUsage] at hbmem ⊢
    rcases mem_updateBatch.1 hbmem with ⟨b0, hb0, rfl⟩
    have hs := hInv.sumEq b0 hb0
    by_cases h0 : b0.id = batch.id
    · have hb0batch : b0 = batch :=
        List.inj_on_of_nodup_map hInv.idNodup hb0 hb h0
      subst hb0batch
      rw [if_pos h0]
      simp [usageSum_append, usageSum_cons, usageSum_nil, hfid]
      omega
    · rw [if_neg h0]
      have hne : batch.id ≠ b0.id := fun h => h0 h.symm
      simp [usageSum_append, usageSum_cons, usageSum_nil, hne]
      omega

theorem LedgerInv_add {s : Ledger} (h : LedgerInv s) (uid : Nat) (c : Int)
    (t : String) (d now : Int) :
    LedgerInv (add_credits s uid c t d now).2 := by
  constructor
  · intro b hb
    simp only [add_credits, List.mem_append, List.mem_singleton] at hb
    show b.id < s.nextBatchId + 1
    rcases hb with hb | rfl
    · exact Nat.lt_succ_of_lt (h.idLt b hb)
    · show s.nextBatchId < s.nextBatchId + 1
      omega
  · simp only [add_credits, List.map_append, List.map_cons, List.map_nil]
    rw [List.nodup_append]
    refine ⟨h.idNodup, List.nodup_singleton _, ?_⟩
    intro i hi hj
    simp only [newBatch, List.mem_singleton] at hj
    rcases List.mem_map.1 hi with ⟨b, hb, rfl⟩
    exact absurd hj (Nat.ne_of_lt (h.idLt b hb))
  · intro u hu
    exact Nat.lt_succ_of_lt (h.usageLt u hu)
  · intro b hb
    simp only [add_credits, List.mem_append, List.mem_singleton] at hb
    rcases hb with hb | rfl
    · exact h.sumEq b hb
    · simp only [newBatch]
      exact usageSum_eq_zero _ _
        (fun u hu => Nat.ne_of_lt (h.usageLt u hu))

theorem deductLoop_LedgerInv (uid : Nat) (name : String) (aid : Option Nat)
    (now : Int) :
    ∀ (l : List CreditBatch) (r : Int) (s : Ledger), LedgerInv s →
      (∀ b ∈ l, b ∈ s.batches) → (l.map (fun b => b.id)).Nodup →
      LedgerInv (deductLoop uid name aid now l r s).2
  | [], _, _, hInv, _, _ => hInv
  | batch :: rest, r, s, hInv, hsub, hnd => by
    rw [deductLoop]
    by_cases hge : batch.credits - batch.used_credits ≥ r
    · simp only [if_pos hge]
      exact LedgerInv_update_insert (updateTake now r) r hInv
        (hsub batch (by simp)) (fun b => rfl) (by simp [updateTake])
        uid name aid now
    · simp only [if_neg hge]
      have hmem : batch ∈ s.batches := hsub batch (by simp)
      have hstep := LedgerInv_update_insert (updateDrain now)
        (batch.credits - batch.used_credits) hInv hmem
        (fun b => rfl) (by simp only [updateDrain]; omega) uid name aid now
      simp only [List.map_cons, List.nodup_cons] at hnd
      refine deductLoop_LedgerInv uid name aid now rest _ _ hstep ?_ hnd.2
      intro b hbr
      have hne : b.id ≠ batch.id := by
        intro h
        exact hnd.1 (h ▸ List.mem_map_of_mem (fun b => b.id) hbr)
      simpa [insertUsage] using
        mem_updateBatch_of_ne (hsub b (by simp [hbr])) hne

theorem activeBatches_id_nodup {s : Ledger} {uid : Nat} {now : Int}
    (h : (s.batches.map (fun b => b.id)).Nodup) :
    ((activeBatches s uid now).map (fun b => b.id)).Nodup := by
  have h1 :
      List.Perm ((activeBatches s uid now).map (fun b => b.id))
        ((s.batches.filter (fun b => b.user_id = uid ∧ now < b.expires_at ∧
          0 < b.credits - b.used_credits)).map (fun b => b.id)) :=
    (List.perm_insertionSort _ _).map _
  exact h1.nodup_iff.mpr
    (List.Nodup.sublist (List.Sublist.map _ (List.filter_sublist _)) h)

theorem activeBatches_sorted (s : Ledger) (uid : Nat) (now : Int) :
    List.Pairwise (fun a b : CreditBatch => a.expires_at ≤ b.expires_at)
      (activeBatches s uid now) := by
  haveI ht : IsTotal CreditBatch (fun a b => a.expires_at ≤ b.expires_at) :=
    ⟨fun a b => Int.le_total a.expires_at b.expires_at⟩
  haveI htr : IsTrans CreditBatch (fun a b => a.expires_at ≤ b.expires_at) :=
    ⟨fun a b c hab hbc => le_trans hab hbc⟩
  exact List.sorted_insertionSort _ _

theorem LedgerInv_deduct {s : Ledger} (h : LedgerInv s) (uid : Nat) (amt : Int)
    (name : String) (aid : Option Nat) (now : Int) :
    LedgerInv (deduct_credits s uid amt name aid now).2 := by
  refine deductLoop_LedgerInv uid name aid now (activeBatches s uid now) amt s
    h ?_ ?_
  · intro b hb
    exact (mem_activeBatches.1 hb).1
  · exact activeBatches_id_nodup h.idNodup

theorem LedgerInv_addPlan {s s' : Ledger} {uid : Nat} {plan : String}
    {now : Int} {bid : Nat} (h : LedgerInv s)
    (heq : add_plan_credits s uid plan now = some (bid, s')) :
    LedgerInv s' := by
  unfold add_plan_credits at heq
  split_ifs at heq
  · have h2 : (add_credits s uid 50 "student" 30 now).2 = s' :=
      congrArg Prod.snd (Option.some.inj heq)
    exact h2 ▸ LedgerInv_add h uid 50 "student" 30 now
  · have h2 : (add_credits s uid 605 "student_yearly" 30 now).2 = s' :=
      congrArg Prod.snd (Option.some.inj heq)
    exact h2 ▸ LedgerInv_add h uid 605 "student_yearly" 30 now
  · have h2 : (add_credits s uid 150 "pro" 30 now).2 = s' :=
      congrArg Prod.snd (Option.some.inj heq)
    exact h2 ▸ LedgerInv_add h uid 150 "pro" 30 now
  · have h2 : (add_credits s uid 605 "pro_yearly" 30 now).2 = s' :=
      congrArg Prod.snd (Option.some.inj heq)
    exact h2 ▸ LedgerInv_add h uid 605 "pro_yearly" 30 now

theorem reachable_LedgerInv {s : Ledger} (h : Reachable s) : LedgerInv s := by
  induction h with
  | empty => exact LedgerInv_empty
  | add s uid credits subType expiryDays now _ ih =>
      exact LedgerInv_add ih uid credits subType expiryDays now
  | addPlan s uid plan now bid s' _ heq ih => exact LedgerInv_addPlan ih heq
  | deduct s uid amt name aid now _ ih =>
      exact LedgerInv_deduct ih uid amt name aid now

theorem reachPos_reachable {s : Ledger} (h : ReachPos s) : Reachable s := by
  induction h with
  | empty => exact Reachable.empty
  | step s s' _ hstep ih =>
    cases hstep with
    | add uid credits subType expiryDays now _ =>
        exact Reachable.add s uid credits subType expiryDays now ih
    | addPlan uid plan now bid s2 heq =>
        exact Reachable.addPlan s uid plan now bid s' ih heq
    | deduct uid amt name aid now _ =>
        exact Reachable.deduct s uid amt name aid now ih

/-! ## Bounds and monotonicity -/

theorem image_mem_updateBatch {bs : List CreditBatch} {b : CreditBatch}
    (hb : b ∈ bs) (i : Nat) (f : CreditBatch → CreditBatch) :
    (if b.id = i then f b else b) ∈ updateBatch bs i f :=
  List.mem_map_of_mem _ hb

theorem mem_add_credits_left {s : Ledger} {b : CreditBatch} (hb : b ∈ s.batches)
    (uid : Nat) (c : Int) (t : String) (d now : Int) :
    b ∈ (add_credits s uid c t d now).2.batches := by
  simp only [add_credits, List.mem_append]
  exact Or.inl hb

theorem BoundsInv_add {s : Ledger} (hB : BoundsInv s) (uid : Nat) {c : Int}
    (hc : 0 ≤ c) (t : String) (d now : Int) :
    BoundsInv (add_credits s uid c t d now).2 := by
  intro b hb
  simp only [add_credits, List.mem_append, List.mem_singleton] at hb
  rcases hb with hb | rfl
  · exact hB b hb
  · simp only [newBatch]
    exact ⟨le_refl 0, hc⟩

theorem addPlan_as_add {s s' : Ledger} {uid : Nat} {plan : String} {now : Int}
    {bid : Nat} (heq : add_plan_credits s uid plan now = some (bid, s')) :
    ∃ c : Int, ∃ t : String, 0 ≤ c ∧ s' = (add_credits s uid c t 30 now).2 := by
  unfold add_plan_credits at heq
  split_ifs at heq
  · exact ⟨50, "student", by norm_num,
      (congrArg Prod.snd (Option.some.inj heq)).symm⟩
  · exact ⟨605, "student_yearly", by norm_num,
      (congrArg Prod.snd (Option.some.inj heq)).symm⟩
  · exact ⟨150, "pro", by norm_num,
      (congrArg Prod.snd (Option.some.inj heq)).symm⟩
  · exact ⟨605, "pro_yearly", by norm_num,
      (congrArg Prod.snd (Option.some.inj heq)).symm⟩

theorem deductLoop_bounds_mono (uid : Nat) (name : String) (aid : Option Nat)
    (now : Int) :
    ∀ (l : List CreditBatch) (r : Int) (s : Ledger),
      (∀ b ∈ l, b ∈ s.batches) → (l.map (fun b => b.id)).Nodup →
      (s.batches.map (fun b => b.id)).Nodup →
      (∀ b ∈ l, 0 < b.credits - b.used_credits) → 0 ≤ r → BoundsInv s →
      BoundsInv (deductLoop uid name aid now l r s).2 ∧
      ∀ b ∈ s.batches,
        ∃ b' ∈ (deductLoop uid name aid now l r s).2.batches,
          b'.id = b.id ∧ b'.credits = b.credits ∧
          b'.subscription_type = b.subscription_type ∧
          b'.expires_at = b.expires_at ∧ b.used_credits ≤ b'.used_credits
  | [], r, s, _, _, _, _, _, hB => by
    refine ⟨hB, ?_⟩
    intro b hb
    exact ⟨b, hb, rfl, rfl, rfl, rfl, le_refl _⟩
  | batch :: rest, r, s, hsub, hndl, hnds, hpos, hr, hB => by
    rw [deductLoop]
    have hbatch : batch ∈ s.batches := hsub batch (by simp)
    by_cases hge : batch.credits - batch.used_credits ≥ r
    · simp only [if_pos hge]
      constructor
      · intro b' hb'
        have hb'' : b' ∈ updateBatch s.batches batch.id (updateTake now r) :=
          hb'
        rcases mem_updateBatch.1 hb'' with ⟨b0, hb0, rfl⟩
        by_cases h0 : b0.id = batch.id
        · have hb0b : b0 = batch :=
            List.inj_on_of_nodup_map hnds hb0 hbatch h0
          have hbd := hB b0 hb0
          rw [if_pos h0]
          simp only [updateTake]
          constructor
          · omega
          · rw [hb0b] at hbd ⊢
            omega
        · rw [if_neg h0]
          exact hB b0 hb0
      · intro b hb
        have himg := image_mem_updateBatch hb batch.id (updateTake now r)
        by_cases h0 : b.id = batch.id
        · rw [if_pos h0] at himg
          refine ⟨updateTake now r b, himg, rfl, rfl, rfl, rfl, ?_⟩
          simp only [updateTake]
          omega
        · rw [if_neg h0] at himg
          exact ⟨b, himg, rfl, rfl, rfl, rfl, le_refl _⟩
    · simp only [if_neg hge]
      have hB2 : BoundsInv (insertUsage
          { s with batches := updateBatch s.batches batch.id (updateDrain now) }
          uid batch.id (batch.credits - batch.used_credits) name aid now) := by
        intro b' hb'
        have hb'' : b' ∈ updateBatch s.batches batch.id (updateDrain now) := hb'
        rcases mem_updateBatch.1 hb'' with ⟨b0, hb0, rfl⟩
        by_cases h0 : b0.id = batch.id
        · have hbd := hB b0 hb0
          rw [if_pos h0]
          simp only [updateDrain]
          omega
        · rw [if_neg h0]
          exact hB b0 hb0
      simp only [List.map_cons, List.nodup_cons] at hndl
      have hsub2 : ∀ b ∈ rest, b ∈ (insertUsage
          { s with batches := updateBatch s.batches batch.id (updateDrain now) }
          uid batch.id (batch.credits - batch.used_credits) name aid
          now).batches := by
        intro b hbr
        have hne : b.id ≠ batch.id := by
          intro h
          exact hndl.1 (h ▸ List.mem_map_of_mem (fun b => b.id) hbr)
        exact mem_updateBatch_of_ne (hsub b (by simp [hbr])) hne
      have hnds2 : ((insertUsage
          { s with batches := updateBatch s.batches batch.id (updateDrain now) }
          uid batch.id (batch.credits - batch.used_credits) name aid
          now).batches.map (fun b => b.id)).Nodup := by
        have := updateBatch_map_id (updateDrain now) (fun b => rfl)
          s.batches batch.id
        simpa [insertUsage, this] using hnds
      obtain ⟨hBf, hmono⟩ := deductLoop_bounds_mono uid name aid now rest
        (r - (batch.credits - batch.used_credits)) _ hsub2 hndl.2 hnds2
        (fun b hb => hpos b (by simp [hb])) (by omega) hB2
      refine ⟨hBf, ?_⟩
      intro b hb
      have himg := image_mem_updateBatch hb batch.id (updateDrain now)
      by_cases h0 : b.id = batch.id
      · rw [if_pos h0] at himg
        obtain ⟨b2, hb2, hid, hcr, hty, hex, hle⟩ := hmono (updateDrain now b)
          himg
        refine ⟨b2, hb2, hid, hcr, hty, hex, ?_⟩
        have hbd := hB b hb
        have hle' : b.credits ≤ b2.used_credits := hle
        omega
      · rw [if_neg h0] at himg
        exact hmono b himg

/-! ## Failure and success characterization of the deduction loop -/

theorem availSum_nil : availSum [] = 0 := rfl

theorem availSum_cons (b : CreditBatch) (l : List CreditBatch) :
    availSum (b :: l) = (b.credits - b.used_credits) + availSum l := by
  simp [availSum]

theorem availSum_nonneg {l : List CreditBatch}
    (h : ∀ b ∈ l, 0 < b.credits - b.used_credits) : 0 ≤ availSum l := by
  induction l with
  | nil => simp [availSum]
  | cons b l ih =>
    have h1 := h b (by simp)
    have h2 := ih (fun x hx => h x (by simp [hx]))
    rw [availSum_cons]
    omega

theorem deductLoop_false_of_insufficient (uid : Nat) (name : String)
    (aid : Option Nat) (now : Int) :
    ∀ (l : List CreditBatch) (r : Int) (s : Ledger),
      (∀ b ∈ l, 0 < b.credits - b.used_credits) → availSum l < r →
      (deductLoop uid name aid now l r s).1 = false ∧
      (deductLoop uid name aid now l r s).2.usage =
        s.usage ++ drainRecords uid name aid now s.nextUsageId l ∧
      ∀ row ∈ (deductLoop uid name aid now l r s).2.batches,
        (row ∈ s.batches ∧ row.id ∉ l.map (fun b => b.id)) ∨
          row.used_credits = row.credits
  | [], r, s, _, _ => by
    rw [deductLoop]
    refine ⟨rfl, by simp [drainRecords], ?_⟩
    intro row hrow
    exact Or.inl ⟨hrow, by simp⟩
  | batch :: rest, r, s, hpos, hlt => by
    rw [deductLoop]
    have havail : 0 < batch.credits - batch.used_credits :=
      hpos batch (by simp)
    have hrest0 : 0 ≤ availSum rest :=
      availSum_nonneg (fun b hb => hpos b (by simp [hb]))
    rw [availSum_cons] at hlt
    have hge : ¬ (batch.credits - batch.used_credits ≥ r) := by omega
    simp only [if_neg hge]
    obtain ⟨h1, h2, h3⟩ := deductLoop_false_of_insufficient uid name aid now
      rest (r - (batch.credits - batch.used_credits))
      (insertUsage
        { s with batches := updateBatch s.batches batch.id (updateDrain now) }
        uid batch.id (batch.credits - batch.used_credits) name aid now)
      (fun b hb => hpos b (by simp [hb])) (by omega)
    refine ⟨h1, ?_, ?_⟩
    · rw [h2]
      simp [insertUsage, drainRecords]
    · intro row hrow
      rcases h3 row hrow with ⟨hrow2, hnotin⟩ | hdr
      · have hrow2' : row ∈ updateBatch s.batches batch.id (updateDrain now) :=
          hrow2
        rcases mem_updateBatch.1 hrow2' with ⟨b0, hb0, rfl⟩
        by_cases h0 : b0.id = batch.id
        · right
          rw [if_pos h0]
          simp [updateDrain]
        · left
          rw [if_neg h0] at hnotin ⊢
          refine ⟨hb0, ?_⟩
          simp only [List.map_cons, List.mem_cons]
          push_neg
          exact ⟨h0, fun h => hnotin h⟩
      · exact Or.inr hdr

theorem deductLoop_true_iff (uid : Nat) (name : String) (aid : Option Nat)
    (now : Int) :
    ∀ (l : List CreditBatch) (r : Int) (s : Ledger),
      (∀ b ∈ l, 0 < b.credits - b.used_credits) → 0 < r →
      ((deductLoop uid name aid now l r s).1 = true ↔ r ≤ availSum l)
  | [], r, s, _, hr => by
    rw [deductLoop]
    constructor
    · intro h
      exact absurd (show false = true from h) (by simp)
    · intro h
      rw [availSum_nil] at h
      omega
  | batch :: rest, r, s, hpos, hr => by
    rw [deductLoop]
    have havail : 0 < batch.credits - batch.used_credits :=
      hpos batch (by simp)
    have hrest0 : 0 ≤ availSum rest :=
      availSum_nonneg (fun b hb => hpos b (by simp [hb]))
    rw [availSum_cons]
    by_cases hge : batch.credits - batch.used_credits ≥ r
    · simp only [if_pos hge]
      constructor
      · intro _
        omega
      · intro _
        trivial
    · simp only [if_neg hge]
      rw [deductLoop_true_iff uid name aid now rest
        (r - (batch.credits - batch.used_credits)) _
        (fun b hb => hpos b (by simp [hb])) (by omega)]
      omega

/-! ## Balance query lemmas -/

theorem filter_sum_eq (bs : List CreditBatch) (uid : Nat) (now : Int) :
    ((bs.filter (fun b => b.user_id = uid ∧ now < b.expires_at)).map
      (fun b => b.credits - b.used_credits)).sum =
    (bs.map (fun b => if b.user_id = uid ∧ now < b.expires_at then
      b.credits - b.used_credits else 0)).sum := by
  induction bs with
  | nil => rfl
  | cons b bs ih =>
    rw [List.filter_cons]
    by_cases h : b.user_id = uid ∧ now < b.expires_at
    · rw [if_pos (decide_eq_true h)]
      simp only [List.map_cons, List.sum_cons, ih]
      rw [if_pos h]
    · rw [if_neg (by simp [h])]
      simp only [List.map_cons, List.sum_cons, ih]
      rw [if_neg h]
      omega

/-! ## Bounds over constrained call sequences -/

theorem reachPos_bounds {s : Ledger} (h : ReachPos s) : BoundsInv s := by
  induction h with
  | empty => intro b hb; cases hb
  | step s s' hr hstep ih =>
    have hInv := reachable_LedgerInv (reachPos_reachable hr)
    cases hstep with
    | add uid credits subType expiryDays now hc =>
        exact BoundsInv_add ih uid hc subType expiryDays now
    | addPlan uid plan now bid s2 heq =>
        obtain ⟨c, t, hc, rfl⟩ := addPlan_as_add heq
        exact BoundsInv_add ih uid hc t 30 now
    | deduct uid amt name aid now hamt =>
        exact (deductLoop_bounds_mono uid name aid now
          (activeBatches s uid now) amt s
          (fun b hb => (mem_activeBatches.1 hb).1)
          (activeBatches_id_nodup hInv.idNodup) hInv.idNodup
          (fun b hb => (mem_activeBatches.1 hb).2.2.2) hamt ih).1

theorem stepPos_mono {s s' : Ledger} (hInv : LedgerInv s) (hB : BoundsInv s)
    (hstep : StepPos s s') :
    ∀ b ∈ s.batches, ∃ b' ∈ s'.batches, b'.id = b.id ∧
      b'.credits = b.credits ∧ b'.subscription_type = b.subscription_type ∧
      b'.expires_at = b.expires_at ∧ b.used_credits ≤ b'.used_credits := by
  cases hstep with
  | add uid credits subType expiryDays now hc =>
      intro b hb
      exact ⟨b, mem_add_credits_left hb uid credits subType expiryDays now,
        rfl, rfl, rfl, rfl, le_refl _⟩
  | addPlan uid plan now bid s2 heq =>
      obtain ⟨c, t, hc, rfl⟩ := addPlan_as_add heq
      intro b hb
      exact ⟨b, mem_add_credits_left hb uid c t 30 now,
        rfl, rfl, rfl, rfl, le_refl _⟩
  | deduct uid amt name aid now hamt =>
      exact (deductLoop_bounds_mono uid name aid now (activeBatches s uid now)
        amt s (fun b hb => (mem_activeBatches.1 hb).1)
        (activeBatches_id_nodup hInv.idNodup) hInv.idNodup
        (fun b hb => (mem_activeBatches.1 hb).2.2.2) hamt hB).2

/-! ## The claims -/

/-- C1: starting from the empty ledger, any sequence of allocation and
deduction calls keeps, for every batch `b`, the sum of usage amounts charged
to `b` equal to `b`'s consumed counter: `deduct_credits` never adjusts
`used_credits` without inserting a matching usage row, and `add_credits`
creates each batch with `used_credits = 0` and no usage row. -/
theorem usage_ledger_matches_consumed (s : Ledger) (hs : Reachable s) :
    ∀ b ∈ s.batches, usageSum s.usage b.id = b.used_credits :=
  (reachable_LedgerInv hs).sumEq

theorem usage_ledger_matches_consumed_witness :
    usageSum exC1.usage exC1batch.id = exC1batch.used_credits :=
  usage_ledger_matches_consumed exC1
    (Reachable.deduct (add_credits emptyLedger 1 5 "free" 14 0).2 1 3 "hw"
      none 1 (Reachable.add emptyLedger 1 5 "free" 14 0 Reachable.empty))
    exC1batch (by decide)

/-- C2: one `deduct_credits` call considers exactly the owner's batches with
`expires_at > now` and positive remaining credits, in ascending `expires_at`
order, draining the earliest-expiring active batch first; with batches of
2 and 10 available credits expiring in 5 and 30 days, deducting 2 consumes
the 5-day batch and leaves the 30-day batch untouched. -/
theorem deduct_considers_active_sorted :
    (∀ (s : Ledger) (uid : Nat) (now : Int) (b : CreditBatch),
      b ∈ activeBatches s uid now ↔
        b ∈ s.batches ∧ b.user_id = uid ∧ now < b.expires_at ∧
          0 < b.credits - b.used_credits) ∧
    (∀ (s : Ledger) (uid : Nat) (now : Int),
      List.Pairwise (fun a b : CreditBatch => a.expires_at ≤ b.expires_at)
        (activeBatches s uid now)) ∧
    deduct_credits exC2 7 2 "essay" none 0 =
      (true, ⟨[⟨1, 7, 2, 2, "free", 5 * day, 0, 0⟩,
               ⟨2, 7, 10, 0, "free", 30 * day, 0, 0⟩],
              [⟨0, 7, 1, 2, "essay", none, 0⟩], 3, 1⟩) :=
  ⟨fun _ _ _ _ => mem_activeBatches, activeBatches_sorted, by decide⟩

/-- C3: when the owner's total available credits are less than the requested
amount, `deduct_credits` reports `false` but has already drained every
active batch (consumed = size) and written one usage row per batch for its
full available credits — no rollback happens. -/
theorem deduct_insufficient_no_rollback (s : Ledger) (uid : Nat) (amt : Int)
    (name : String) (aid : Option Nat) (now : Int)
    (h : availSum (activeBatches s uid now) < amt) :
    (deduct_credits s uid amt name aid now).1 = false ∧
    (deduct_credits s uid amt name aid now).2.usage =
      s.usage ++ drainRecords uid name aid now s.nextUsageId
        (activeBatches s uid now) ∧
    ∀ b ∈ activeBatches s uid now,
      ∀ row ∈ (deduct_credits s uid amt name aid now).2.batches,
        row.id = b.id → row.used_credits = row.credits := by
  obtain ⟨h1, h2, h3⟩ := deductLoop_false_of_insufficient uid name aid now
    (activeBatches s uid now) amt s
    (fun b hb => (mem_activeBatches.1 hb).2.2.2) h
  refine ⟨h1, h2, ?_⟩
  intro b hb row hrow hid
  rcases h3 row hrow with ⟨_, hnot⟩ | hdr
  · exact absurd (hid.symm ▸ List.mem_map_of_mem (fun b => b.id) hb) hnot
  · exact hdr

theorem deduct_insufficient_no_rollback_witness :
    availSum (activeBatches exC3 1 0) < 10 ∧
    (deduct_credits exC3 1 10 "a" none 0).1 = false ∧
    (deduct_credits exC3 1 10 "a" none 0).2.batches =
      [⟨0, 1, 5, 5, "free", 10 * day, 0, 0⟩] ∧
    (deduct_credits exC3 1 10 "a" none 0).2.usage =
      [⟨0, 1, 0, 5, "a", none, 0⟩] :=
  ⟨by decide,
   (deduct_insufficient_no_rollback exC3 1 10 "a" none 0 (by decide)).1,
   by decide, by decide⟩

/-- C4: for a positive requested amount, `deduct_credits` returns `true`
exactly when the request is covered by the total credits available across
the active batches; deducting exactly the total drains each active batch
and records one usage row per batch, with exhausted batches excluded. -/
theorem deduct_true_iff_covered :
    (∀ (s : Ledger) (uid : Nat) (amt : Int) (name : String) (aid : Option Nat)
      (now : Int), 0 < amt →
      ((deduct_credits s uid amt name aid now).1 = true ↔
        amt ≤ availSum (activeBatches s uid now))) ∧
    deduct_credits exC4 4 5 "hw" none 0 =
      (true, ⟨[⟨1, 4, 5, 5, "free", 2 * day, 0, 0⟩,
               ⟨2, 4, 3, 3, "free", 3 * day, 0, 0⟩,
               ⟨3, 4, 2, 2, "free", 4 * day, 0, 0⟩],
              [⟨0, 4, 2, 3, "hw", none, 0⟩, ⟨1, 4, 3, 2, "hw", none, 0⟩],
              4, 2⟩) := by
  constructor
  · intro s uid amt name aid now hamt
    exact deductLoop_true_iff uid name aid now (activeBatches s uid now) amt s
      (fun b hb => (mem_activeBatches.1 hb).2.2.2) hamt
  · decide

theorem deduct_true_iff_covered_witness :
    0 < (5 : Int) ∧
    ((deduct_credits exC4 4 5 "hw" none 0).1 = true ↔
      5 ≤ availSum (activeBatches exC4 4 0)) :=
  ⟨by decide, deduct_true_iff_covered.1 exC4 4 5 "hw" none 0 (by decide)⟩

/-- C5: the balance query returns the sum of `credits - used_credits` over
the owner's non-expired batches and nothing else (it is a pure function of
the ledger); a batch past its expiry contributes `0` even with credits
left, and such a batch is never part of the deduction snapshot. -/
theorem balance_reads_active_only :
    (∀ (s : Ledger) (uid : Nat) (now : Int),
      getRemainingCredits s uid now = balanceSpec s uid now) ∧
    (∀ (s : Ledger) (uid : Nat) (now : Int) (b : CreditBatch),
      b.expires_at ≤ now →
      getRemainingCredits { s with batches := s.batches ++ [b] } uid now =
        getRemainingCredits s uid now ∧
      b ∉ activeBatches { s with batches := s.batches ++ [b] } uid now) := by
  constructor
  · exact fun s uid now => filter_sum_eq s.batches uid now
  · intro s uid now b hexp
    constructor
    · simp [getRemainingCredits, List.filter_append, List.filter_cons,
        show ¬ (now < b.expires_at) from not_lt.mpr hexp]
    · intro hmem
      have := (mem_activeBatches.1 hmem).2.2.1
      omega

theorem balance_reads_active_only_witness :
    exC5expired.expires_at ≤ 0 ∧
    getRemainingCredits { exC5 with batches := exC5.batches ++ [exC5expired] }
      2 0 = getRemainingCredits exC5 2 0 ∧
    exC5expired ∉
      activeBatches { exC5 with batches := exC5.batches ++ [exC5expired] }
        2 0 :=
  ⟨by decide,
   (balance_reads_active_only.2 exC5 2 0 exC5expired (by decide)).1,
   (balance_reads_active_only.2 exC5 2 0 exC5expired (by decide)).2⟩

/-- C6: `add_credits` inserts exactly one batch with `used_credits = 0` and
the requested size, writes no usage row, returns the new batch's id, and
fixes the expiry by tier — `free` at `now` plus the caller's (unvalidated)
day offset, `student` at 30 days, `student_yearly` at 365 days, `pro` at
90 days, `pro_yearly` at 365 days; two calls create two distinct batches. -/
theorem add_credits_allocation_spec :
    (∀ (s : Ledger) (uid : Nat) (c : Int) (t : String) (d now : Int),
      (add_credits s uid c t d now).2.batches =
        s.batches ++ [newBatch s uid c t d now] ∧
      (add_credits s uid c t d now).2.usage = s.usage ∧
      (add_credits s uid c t d now).1 = s.nextBatchId ∧
      (newBatch s uid c t d now).id = s.nextBatchId ∧
      (newBatch s uid c t d now).used_credits = 0 ∧
      (newBatch s uid c t d now).credits = c ∧
      (newBatch s uid c t d now).subscription_type = t ∧
      (newBatch s uid c t d now).expires_at = add_expiry t d now) ∧
    (∀ d now : Int, add_expiry "free" d now = now + d * day) ∧
    (∀ d now : Int, add_expiry "student" d now = now + 30 * day) ∧
    (∀ d now : Int, add_expiry "student_yearly" d now = now + 365 * day) ∧
    (∀ d now : Int, add_expiry "pro" d now = now + 90 * day) ∧
    (∀ d now : Int, add_expiry "pro_yearly" d now = now + 365 * day) ∧
    (∀ (s : Ledger) (uid : Nat) (c : Int) (t : String) (d now : Int)
      (uid' : Nat) (c' : Int) (t' : String) (d' now' : Int),
      (add_credits (add_credits s uid c t d now).2 uid' c' t' d'
        now').2.batches.length = s.batches.length + 2 ∧
      (add_credits (add_credits s uid c t d now).2 uid' c' t' d' now').1 ≠
        (add_credits s uid c t d now).1) := by
  refine ⟨fun s uid c t d now => ⟨rfl, rfl, rfl, rfl, rfl, rfl, rfl, rfl⟩,
    fun d now => rfl, fun d now => rfl, fun d now => rfl, fun d now => rfl,
    fun d now => rfl, ?_⟩
  intro s uid c t d now uid' c' t' d' now'
  constructor
  · simp [add_credits]
  · simp only [add_credits]
    omega

/-- C7: `add_plan_credits` maps each recognized plan token to its fixed
(amount, tier) pair and delegates to `add_credits`; the `pro_yearly` token
yields a 605-credit batch typed `pro_yearly` expiring 365 days out, and any
unrecognized token errors out without touching the ledger. -/
theorem add_plan_credits_spec :
    (∀ (s : Ledger) (uid : Nat) (now : Int),
      add_plan_credits s uid "student_monthly" now =
        some (add_credits s uid 50 "student" 30 now) ∧
      add_plan_credits s uid "student_yearly" now =
        some (add_credits s uid 605 "student_yearly" 30 now) ∧
      add_plan_credits s uid "pro_monthly" now =
        some (add_credits s uid 150 "pro" 30 now) ∧
      add_plan_credits s uid "pro_yearly" now =
        some (add_credits s uid 605 "pro_yearly" 30 now) ∧
      (add_credits s uid 605 "pro_yearly" 30 now).2.batches =
        s.batches ++ [newBatch s uid 605 "pro_yearly" 30 now] ∧
      (newBatch s uid 605 "pro_yearly" 30 now).credits = 605 ∧
      (newBatch s uid 605 "pro_yearly" 30 now).subscription_type =
        "pro_yearly" ∧
      (newBatch s uid 605 "pro_yearly" 30 now).expires_at =
        now + 365 * day) ∧
    (∀ (s : Ledger) (uid : Nat) (plan : String) (now : Int),
      plan ≠ "student_monthly" → plan ≠ "student_yearly" →
      plan ≠ "pro_monthly" → plan ≠ "pro_yearly" →
      add_plan_credits s uid plan now = none) := by
  constructor
  · exact fun s uid now => ⟨rfl, rfl, rfl, rfl, rfl, rfl, rfl, rfl⟩
  · intro s uid plan now h1 h2 h3 h4
    simp [add_plan_credits, h1, h2, h3, h4]

theorem add_plan_credits_spec_witness :
    ("bogus" ≠ "student_monthly") ∧
    add_plan_credits emptyLedger 1 "bogus" 0 = none :=
  ⟨by decide,
   add_plan_credits_spec.2 emptyLedger 1 "bogus" 0 (by decide) (by decide)
     (by decide) (by decide)⟩

/-- C8 counterexample: with an arbitrary (here negative) deduction amount,
a reachable state violates `0 ≤ used_credits`: after allocating 5 credits
and deducting `-3`, the batch's consumed counter is `-3`, which is negative
and strictly below its previous value `0`. -/
theorem consumed_bounds_counterexample :
    cexC8.batches = [⟨0, 1, 5, -3, "free", 14 * day, 0, 1⟩] ∧
    ¬ (∀ s : Ledger, Reachable s → ∀ b ∈ s.batches, 0 ≤ b.used_credits) := by
  constructor
  · decide
  · intro h
    have hr : Reachable cexC8 :=
      Reachable.deduct (add_credits emptyLedger 1 5 "free" 14 0).2 1 (-3)
        "hw" none 1 (Reachable.add emptyLedger 1 5 "free" 14 0
          Reachable.empty)
    have hb := h cexC8 hr ⟨0, 1, 5, -3, "free", 14 * day, 0, 1⟩ (by decide)
    norm_num at hb

/-- C8 (amended): over call sequences obeying the spec's input constraints
(non-negative allocation and deduction amounts), every batch keeps
`0 ≤ used_credits ≤ credits`; across any single further call, a batch's
consumed counter never decreases and its size, tier and expiry never
change; allocations only append a new batch row. -/
theorem consumed_bounds_monotone :
    (∀ s : Ledger, ReachPos s → ∀ b ∈ s.batches,
      0 ≤ b.used_credits ∧ b.used_credits ≤ b.credits) ∧
    (∀ s s' : Ledger, ReachPos s → StepPos s s' → ∀ b ∈ s.batches,
      ∃ b' ∈ s'.batches, b'.id = b.id ∧ b'.credits = b.credits ∧
        b'.subscription_type = b.subscription_type ∧
        b'.expires_at = b.expires_at ∧ b.used_credits ≤ b'.used_credits) ∧
    (∀ (s : Ledger) (uid : Nat) (c : Int) (t : String) (d now : Int),
      (add_credits s uid c t d now).2.batches =
        s.batches ++ [newBatch s uid c t d now]) := by
  refine ⟨fun s hs => reachPos_bounds hs, ?_, fun s uid c t d now => rfl⟩
  intro s s' hs hstep
  exact stepPos_mono (reachable_LedgerInv (reachPos_reachable hs))
    (reachPos_bounds hs) hstep

theorem consumed_bounds_monotone_witness :
    ReachPos exC1 ∧ 0 ≤ exC1batch.used_credits ∧
      exC1batch.used_credits ≤ exC1batch.credits := by
  have hstep1 : StepPos emptyLedger (add_credits emptyLedger 1 5 "free" 14 0).2 :=
    StepPos.add emptyLedger 1 5 "free" 14 0 (by norm_num)
  have hstep2 : StepPos (add_credits emptyLedger 1 5 "free" 14 0).2 exC1 :=
    StepPos.deduct (add_credits emptyLedger 1 5 "free" 14 0).2 1 3 "hw"
      none 1 (by norm_num)
  have hreach : ReachPos exC1 :=
    ReachPos.step _ _ (ReachPos.step _ _ ReachPos.empty hstep1) hstep2
  exact ⟨hreach, consumed_bounds_monotone.1 exC1 hreach exC1batch (by decide)⟩

/-- C9: allocating `c ≥ 0` free credits with a positive expiry offset
raises the owner's balance at allocation time by exactly `c`; on a fresh
account, allocating 10 free credits for 14 days then querying the balance
returns 10. -/
theorem balance_after_allocation :
    (∀ (s : Ledger) (uid : Nat) (c d now : Int), 0 ≤ c → 0 < d →
      getRemainingCredits (add_credits s uid c "free" d now).2 uid now =
        getRemainingCredits s uid now + c) ∧
    getRemainingCredits (add_credits emptyLedger 1 10 "free" 14 0).2 1 0 =
      10 := by
  constructor
  · intro s uid c d now hc hd
    have hfree : add_expiry "free" d now = now + d * day := rfl
    have hday : (0 : Int) < day := by norm_num [day]
    have hlt : now < now + d * day := by nlinarith
    simp [getRemainingCredits, add_credits, newBatch, List.filter_append,
      List.filter_cons, hfree, hlt]
  · decide

theorem balance_after_allocation_witness :
    (0 : Int) ≤ 10 ∧ (0 : Int) < 14 ∧
    getRemainingCredits (add_credits emptyLedger 1 10 "free" 14 0).2 1 0 =
      getRemainingCredits emptyLedger 1 0 + 10 :=
  ⟨by decide, by decide,
   balance_after_allocation.1 emptyLedger 1 10 14 0 (by decide) (by decide)⟩

/-- C10: with at least one active batch, a deduction of a non-positive
amount returns `true`, adds that amount to the earliest-expiring active
batch's consumed counter, and inserts exactly one usage row carrying it;
with no active batch it returns `false` and leaves the ledger unchanged. -/
theorem deduct_nonpositive_amount :
    (∀ (s : Ledger) (uid : Nat) (amt : Int) (name : String) (aid : Option Nat)
      (now : Int) (hd : CreditBatch) (tl : List CreditBatch), amt ≤ 0 →
      activeBatches s uid now = hd :: tl →
      deduct_credits s uid amt name aid now =
        (true, insertUsage
          { s with
            batches := updateBatch s.batches hd.id (updateTake now amt) }
          uid hd.id amt name aid now) ∧
      ∀ b ∈ activeBatches s uid now, hd.expires_at ≤ b.expires_at) ∧
    (∀ (s : Ledger) (uid : Nat) (amt : Int) (name : String) (aid : Option Nat)
      (now : Int), activeBatches s uid now = [] →
      deduct_credits s uid amt name aid now = (false, s)) := by
  constructor
  · intro s uid amt name aid now hd tl hamt hsnap
    have hpos : 0 < hd.credits - hd.used_credits :=
      (mem_activeBatches.1 (by rw [hsnap]; simp)).2.2.2
    have hge : hd.credits - hd.used_credits ≥ amt := by omega
    constructor
    · rw [deduct_credits, hsnap, deductLoop]
      simp only [if_pos hge]
    · intro b hb
      have hsorted := activeBatches_sorted s uid now
      rw [hsnap] at hsorted hb
      rcases List.mem_cons.1 hb with rfl | hb2
      · exact le_refl _
      · exact (List.pairwise_cons.1 hsorted).1 b hb2
  · intro s uid amt name aid now hsnap
    rw [deduct_credits, hsnap, deductLoop]

theorem deduct_nonpositive_amount_witness :
    ((-4 : Int) ≤ 0) ∧
    activeBatches exC10 3 0 = [⟨6, 3, 9, 0, "free", 2 * day, 0, 0⟩,
      ⟨5, 3, 6, 1, "free", 8 * day, 0, 0⟩] ∧
    deduct_credits exC10 3 (-4) "neg" none 0 =
      (true, insertUsage
        { exC10 with batches := updateBatch exC10.batches 6 (updateTake 0 (-4)) }
        3 6 (-4) "neg" none 0) :=
  ⟨by decide, by decide,
   (deduct_nonpositive_amount.1 exC10 3 (-4) "neg" none 0
     ⟨6, 3, 9, 0, "free", 2 * day, 0, 0⟩ [⟨5, 3, 6, 1, "free", 8 * day, 0, 0⟩]
     (by decide) (by decide)).1⟩

theorem deduct_considers_active_sorted_witness :
    (exC1batch ∈ activeBatches exC1 1 1 ↔
      exC1batch ∈ exC1.batches ∧ exC1batch.user_id = 1 ∧
        (1 : Int) < exC1batch.expires_at ∧
        0 < exC1batch.credits - exC1batch.used_credits) ∧
    List.Pairwise (fun a b : CreditBatch => a.expires_at ≤ b.expires_at)
      (activeBatches exC1 1 1) :=
  ⟨deduct_considers_active_sorted.1 exC1 1 1 exC1batch,
   deduct_considers_active_sorted.2.1 exC1 1 1⟩

theorem add_credits_allocation_spec_witness :
    (add_credits exC3 1 20 "student" 30 100).2.batches =
      exC3.batches ++ [newBatch exC3 1 20 "student" 30 100] ∧
    add_expiry "student" 30 100 = 100 + 30 * day ∧
    (add_credits (add_credits exC3 1 20 "student" 30 100).2 1 7 "free" 14
      100).1 ≠ (add_credits exC3 1 20 "student" 30 100).1 :=
  ⟨(add_credits_allocation_spec.1 exC3 1 20 "student" 30 100).1,
   add_credits_allocation_spec.2.2.1 30 100,
   (add_credits_allocation_spec.2.2.2.2.2.2 exC3 1 20 "student" 30 100 1 7
     "free" 14 100).2⟩
